import Mathlib

/-!
Shallow embedding of the numeric kernel in src/main/common/maths.c
(EmuFlight). Machine integers are modelled as ℤ (the operations verified
here never overflow 32 bits is argued per claim), single-precision floats
as exact rationals ℚ, except where the code calls sqrtf, which is modelled
by Real.sqrt over ℝ. Constants and macros that live in the missing header
maths.h (ABS, MIN, MAX, M_PIf) are modelled from the spec, as noted on
each definition.
-/

/-- Modelled from the spec: the ABS macro from the missing header maths.h,
written in the spec as the absolute value bars in the deadband contract.
The conventional expansion is ((x) > 0 ? (x) : -(x)). -/
def ABS (x : ℤ) : ℤ := if 0 < x then x else -x

/-- Embedding of applyDeadband (maths.c lines 107-112): values inside the
deadband collapse to 0, values outside are shifted toward 0 by deadband. -/
def applyDeadband (value deadband : ℤ) : ℤ :=
  if ABS value < deadband then 0
  else if 0 ≤ value then value - deadband else value + deadband

/-- Embedding of fapplyDeadband (maths.c lines 114-119), the float variant,
with fabsf modelled as the exact absolute value on ℚ. -/
def fapplyDeadband (value deadband : ℚ) : ℚ :=
  if |value| < deadband then 0
  else if 0 ≤ value then value - deadband else value + deadband

/-- Embedding of scaleRange (maths.c lines 150-154). The C code widens to
long int before the multiply; the intermediate a and b are modelled as
unbounded integers, and C division truncates toward zero, which is
Int.tdiv. -/
def scaleRange (x srcFrom srcTo destFrom destTo : ℤ) : ℤ :=
  let a : ℤ := (destTo - destFrom) * (x - srcFrom)
  let b : ℤ := srcTo - srcFrom
  Int.tdiv a b + destFrom

/-- Embedding of stdev_t. The struct declaration lives in the missing
header maths.h; its five fields and their meaning (sample count, old/new
running mean, old/new sum of squared deviations) are exactly the ones
read and written by devClear/devPush/devVariance in maths.c. -/
structure stdev_t where
  m_n : ℕ
  m_oldM : ℚ
  m_newM : ℚ
  m_oldS : ℚ
  m_newS : ℚ

/-- Embedding of devClear (maths.c lines 121-123): only the count is
reset; the other fields keep whatever they held. -/
def devClear (dev : stdev_t) : stdev_t := { dev with m_n := 0 }

/-- Embedding of devPush (maths.c lines 125-136), Welford's update. On the
first sample both means are set to x and the old accumulator to 0 (m_newS
keeps its previous contents, as in the C); afterwards the incremental
formulas update mean and accumulator and copy new into old. -/
def devPush (dev : stdev_t) (x : ℚ) : stdev_t :=
  let n := dev.m_n + 1
  if n = 1 then
    { dev with m_n := n, m_oldM := x, m_newM := x, m_oldS := 0 }
  else
    let newM := dev.m_oldM + (x - dev.m_oldM) / (n : ℚ)
    let newS := dev.m_oldS + (x - dev.m_oldM) * (x - newM)
    { m_n := n, m_oldM := newM, m_newM := newM, m_oldS := newS, m_newS := newS }

/-- Embedding of devVariance (maths.c lines 138-140): Bessel-corrected
sample variance, 0 when fewer than two samples have been pushed. -/
def devVariance (dev : stdev_t) : ℚ :=
  if 1 < dev.m_n then dev.m_newS / ((dev.m_n : ℚ) - 1) else 0

/-- Embedding of devStandardDeviation (maths.c lines 142-144); sqrtf is
modelled by the real square root. -/
noncomputable def devStandardDeviation (dev : stdev_t) : ℝ :=
  Real.sqrt ((devVariance dev : ℚ) : ℝ)

/-- Folding devPush over a list of samples, the sequence-of-calls view of
the accumulator used by the statistics claims. -/
def devPushList (dev : stdev_t) (xs : List ℚ) : stdev_t := xs.foldl devPush dev

/-- Coefficient atanPolyCoef1 of atan2_approx (maths.c line 66). -/
def atanPolyCoef1 : ℚ := 3.14551665884836e-7

/-- Coefficient atanPolyCoef2 of atan2_approx (maths.c line 67). -/
def atanPolyCoef2 : ℚ := 0.99997356613987

/-- Coefficient atanPolyCoef3 of atan2_approx (maths.c line 68). -/
def atanPolyCoef3 : ℚ := 0.14744007058297684

/-- Coefficient atanPolyCoef4 of atan2_approx (maths.c line 69). -/
def atanPolyCoef4 : ℚ := 0.3099814292351353

/-- Coefficient atanPolyCoef5 of atan2_approx (maths.c line 70). -/
def atanPolyCoef5 : ℚ := 0.05030176425872175

/-- Coefficient atanPolyCoef6 of atan2_approx (maths.c line 71). -/
def atanPolyCoef6 : ℚ := 0.1471039133652469

/-- Coefficient atanPolyCoef7 of atan2_approx (maths.c line 72). -/
def atanPolyCoef7 : ℚ := 0.6444640676891548

/-- Modelled from the spec: M_PIf from the missing header maths.h, the
single-precision pi constant, written with its customary source literal.
The spec calls it pi in the wrap-to-range and quadrant corrections. -/
def M_PIf : ℚ := 3.14159265358979323846

/-- Embedding of atan2_approx (maths.c lines 65-84). MIN and MAX are the
usual header macros, modelled from the spec as min and max; the C truth
test if (res) is res not equal to 0. -/
def atan2_approx (y x : ℚ) : ℚ :=
  let absX := |x|
  let absY := |y|
  let res0 := max absX absY
  let res1 := if res0 ≠ 0 then min absX absY / res0 else 0
  let res2 := -((((atanPolyCoef5 * res1 - atanPolyCoef4) * res1 - atanPolyCoef3) * res1
      - atanPolyCoef2) * res1 - atanPolyCoef1)
    / ((atanPolyCoef7 * res1 + atanPolyCoef6) * res1 + 1)
  let res3 := if absX < absY then M_PIf / 2 - res2 else res2
  let res4 := if x < 0 then M_PIf - res3 else res3
  if y < 0 then -res4 else res4

/-- Embedding of the quaternion struct from the headers, whose four float
fields w, x, y, z are the ones maths.c reads and writes; the carrier is a
type parameter so the same operations serve the exact-rational model and
the real model used where sqrtf appears. -/
@[ext]
structure quaternion (α : Type) where
  w : α
  x : α
  y : α
  z : α

/-- Embedding of quaternionMultiply (maths.c lines 398-407), the Hamilton
product; the products are computed into temporaries before any store, so
aliasing of o with l or r is harmless, and the value model just returns
the new quaternion. -/
def quaternionMultiply [Ring α] (l r : quaternion α) : quaternion α :=
  { w := l.w * r.w - l.x * r.x - l.y * r.y - l.z * r.z
    x := l.w * r.x + l.x * r.w + l.y * r.z - l.z * r.y
    y := l.w * r.y - l.x * r.z + l.y * r.w + l.z * r.x
    z := l.w * r.z + l.x * r.y - l.y * r.x + l.z * r.w }

/-- Embedding of quaternionCopy (maths.c lines 428-433). -/
def quaternionCopy (s : quaternion α) : quaternion α :=
  { w := s.w, x := s.x, y := s.y, z := s.z }

/-- Embedding of quaternionConjugate (maths.c lines 435-440). -/
def quaternionConjugate [Ring α] (i : quaternion α) : quaternion α :=
  { w := i.w, x := -i.x, y := -i.y, z := -i.z }

/-- Embedding of quaternionNorm (maths.c lines 446-448), the squared
modulus. -/
def quaternionNorm [Ring α] (q : quaternion α) : α :=
  q.w * q.w + q.x * q.x + q.y * q.y + q.z * q.z

/-- Embedding of quaternionModulus (maths.c lines 450-452); sqrtf is
modelled by the real square root. -/
noncomputable def quaternionModulus (q : quaternion ℝ) : ℝ :=
  Real.sqrt (quaternionNorm q)

/-- Embedding of quaternionNormalize (maths.c lines 409-419): divide the
four components by the modulus, or leave the quaternion untouched when the
modulus is exactly 0. -/
noncomputable def quaternionNormalize (q : quaternion ℝ) : quaternion ℝ :=
  let modulus := quaternionModulus q
  if modulus = 0 then q
  else { w := q.w / modulus, x := q.x / modulus, y := q.y / modulus, z := q.z / modulus }

/-- Embedding of quaternionInitQuaternion (maths.c lines 454-459), the
identity quaternion. -/
def quaternionInitQuaternion [Ring α] : quaternion α :=
  { w := 1, x := 0, y := 0, z := 0 }

/-- Embedding of quaternionTransformVectorBodyToEarth (maths.c lines
367-374): the argument quaternion has its w field forced to 0, is copied
to a buffer, and qReference times buffer times conjugate of qReference is
stored back, with the same association as the two quaternionMultiply
calls. -/
def quaternionTransformVectorBodyToEarth [Ring α] (qVector qReference : quaternion α) :
    quaternion α :=
  let qVector0 := { qVector with w := 0 }
  let qVectorBuffer := quaternionCopy qVector0
  let qReferenceConjugate := quaternionConjugate qReference
  let qVectorBuffer2 := quaternionMultiply qReference qVectorBuffer
  quaternionMultiply qVectorBuffer2 qReferenceConjugate

/-- Embedding of quaternionTransformVectorEarthToBody (maths.c lines
376-383): same shape with the conjugate on the left and qReference on the
right. -/
def quaternionTransformVectorEarthToBody [Ring α] (qVector qReference : quaternion α) :
    quaternion α :=
  let qVector0 := { qVector with w := 0 }
  let qVectorBuffer := quaternionCopy qVector0
  let qReferenceConjugate := quaternionConjugate qReference
  let qVectorBuffer2 := quaternionMultiply qReferenceConjugate qVectorBuffer
  quaternionMultiply qVectorBuffer2 qReference

/-- Embedding of the fp_vector struct from the headers, three float
components X, Y, Z as read and written by normalizeV. -/
@[ext]
structure fp_vector where
  X : ℝ
  Y : ℝ
  Z : ℝ

/-- Embedding of normalizeV (maths.c lines 163-171): divide the three
components by the Euclidean length, writing into dest, or leave dest
exactly as it was when the length is 0. -/
noncomputable def normalizeV (src dest : fp_vector) : fp_vector :=
  let length := Real.sqrt (src.X * src.X + src.Y * src.Y + src.Z * src.Z)
  if length ≠ 0 then { X := src.X / length, Y := src.Y / length, Z := src.Z / length }
  else dest

/-- Positivity of the modelled pi constant, used by the loop measures. -/
lemma M_PIf_pos : 0 < M_PIf := by norm_num [M_PIf]

/-- Ceiling measure of the downward wrap drops by exactly one per
iteration. -/
lemma ceil_measure_down (x : ℚ) :
    ⌈(x - 2 * M_PIf - M_PIf) / (2 * M_PIf)⌉ = ⌈(x - M_PIf) / (2 * M_PIf)⌉ - 1 := by
  have h2 : (2 : ℚ) * M_PIf ≠ 0 := by norm_num [M_PIf]
  have h : (x - 2 * M_PIf - M_PIf) / (2 * M_PIf) = (x - M_PIf) / (2 * M_PIf) - 1 := by
    field_simp
    ring
  rw [h, Int.ceil_sub_one]

/-- Ceiling measure of the upward wrap drops by exactly one per
iteration. -/
lemma ceil_measure_up (x : ℚ) :
    ⌈(-M_PIf - (x + 2 * M_PIf)) / (2 * M_PIf)⌉ = ⌈(-M_PIf - x) / (2 * M_PIf)⌉ - 1 := by
  have h2 : (2 : ℚ) * M_PIf ≠ 0 := by norm_num [M_PIf]
  have h : (-M_PIf - (x + 2 * M_PIf)) / (2 * M_PIf) = (-M_PIf - x) / (2 * M_PIf) - 1 := by
    field_simp
    ring
  rw [h, Int.ceil_sub_one]

/-- Embedding of the first while loop of sin_approx (maths.c line 49):
while the angle exceeds pi, subtract two pi. Totality is the termination
argument for the loop. -/
def wrapDown (x : ℚ) : ℚ :=
  if h : M_PIf < x then wrapDown (x - 2 * M_PIf) else x
termination_by (⌈(x - M_PIf) / (2 * M_PIf)⌉).toNat
decreasing_by
  rw [ceil_measure_down]
  have hpos : (0 : ℚ) < (x - M_PIf) / (2 * M_PIf) :=
    div_pos (by linarith) (by linarith [M_PIf_pos])
  have h1 : 0 < ⌈(x - M_PIf) / (2 * M_PIf)⌉ := Int.ceil_pos.mpr hpos
  omega

/-- Embedding of the second while loop of sin_approx (maths.c line 50):
while the angle is below minus pi, add two pi. -/
def wrapUp (x : ℚ) : ℚ :=
  if h : x < -M_PIf then wrapUp (x + 2 * M_PIf) else x
termination_by (⌈(-M_PIf - x) / (2 * M_PIf)⌉).toNat
decreasing_by
  rw [ceil_measure_up]
  have hpos : (0 : ℚ) < (-M_PIf - x) / (2 * M_PIf) :=
    div_pos (by linarith) (by linarith [M_PIf_pos])
  have h1 : 0 < ⌈(-M_PIf - x) / (2 * M_PIf)⌉ := Int.ceil_pos.mpr hpos
  omega

/-- Fuel-indexed run of the first while loop: none means the fuel ran out
before the loop condition became false. -/
def wrapDownFuel : ℕ → ℚ → Option ℚ
  | 0, x => if M_PIf < x then none else some x
  | n + 1, x => if M_PIf < x then wrapDownFuel n (x - 2 * M_PIf) else some x

/-- Fuel-indexed run of the second while loop. -/
def wrapUpFuel : ℕ → ℚ → Option ℚ
  | 0, x => if x < -M_PIf then none else some x
  | n + 1, x => if x < -M_PIf then wrapUpFuel n (x + 2 * M_PIf) else some x

/-- Coefficient sinPolyCoef3 of the default FAST_MATH build (maths.c
line 41). -/
def sinPolyCoef3 : ℚ := -1.666665710e-1

/-- Coefficient sinPolyCoef5 of the default FAST_MATH build (maths.c
line 42). -/
def sinPolyCoef5 : ℚ := 8.333017292e-3

/-- Coefficient sinPolyCoef7 of the default FAST_MATH build (maths.c
line 43). -/
def sinPolyCoef7 : ℚ := -1.980661520e-4

/-- Coefficient sinPolyCoef9 of the default FAST_MATH build (maths.c
line 44). -/
def sinPolyCoef9 : ℚ := 2.600054768e-6

/-- Truncation toward zero, the semantics of the C cast from float to
int32_t performed at the top of sin_approx; the int32 range is not
modelled since the guard only compares against plus and minus 32. -/
def truncQ (x : ℚ) : ℤ := if 0 ≤ x then ⌊x⌋ else ⌈x⌉

/-- Embedding of sin_approx (maths.c lines 46-55), FAST_MATH coefficient
set: guard on the truncated magnitude, wrap into the pi range by the two
loops, fold into the half-pi range by reflection, then the odd polynomial. -/
def sin_approx (x : ℚ) : ℚ :=
  let xint : ℤ := truncQ x
  if xint < -32 ∨ 32 < xint then 0
  else
    let x1 := wrapUp (wrapDown x)
    let x2 :=
      if 0.5 * M_PIf < x1 then 0.5 * M_PIf - (x1 - 0.5 * M_PIf)
      else if x1 < -(0.5 * M_PIf) then -(0.5 * M_PIf) - (0.5 * M_PIf + x1)
      else x1
    let xsq := x2 * x2
    x2 + x2 * xsq * (sinPolyCoef3 + xsq * (sinPolyCoef5 + xsq * (sinPolyCoef7 + xsq * sinPolyCoef9)))

/-- Embedding of one QMF_SORT(p[i], p[j]) step (maths.c lines 210-211):
after the conditional swap, slot i holds the smaller and slot j the larger
of the two compared values; the other slots are untouched. The carrier is
any linear order so the same network serves ℤ and the Boolean inputs of
the zero-one argument. -/
def cas {n : ℕ} {α : Type} [LinearOrder α] (i j : Fin n) (v : Fin n → α) : Fin n → α :=
  fun k => if k = i then min (v i) (v j) else if k = j then max (v i) (v j) else v k

/-- Comparator sequence of quickMedianFilter3 (maths.c lines 216-223). -/
def quickMedianNet3 {α : Type} [LinearOrder α] (v : Fin 3 → α) : Fin 3 → α :=
  v |> cas 0 1 |> cas 1 2 |> cas 0 1

/-- Embedding of quickMedianFilter3: run the network on a copy of the
input and return p[1]. -/
def quickMedianFilter3 (v : Fin 3 → ℤ) : ℤ := quickMedianNet3 v 1

/-- Comparator sequence of quickMedianFilter5 (maths.c lines 225-236). -/
def quickMedianNet5 {α : Type} [LinearOrder α] (v : Fin 5 → α) : Fin 5 → α :=
  v |> cas 0 1 |> cas 3 4 |> cas 0 3 |> cas 1 4 |> cas 1 2 |> cas 2 3 |> cas 1 2

/-- Embedding of quickMedianFilter5: run the network and return p[2]. -/
def quickMedianFilter5 (v : Fin 5 → ℤ) : ℤ := quickMedianNet5 v 2

/-- Comparator sequence of quickMedianFilter7 (maths.c lines 238-255). -/
def quickMedianNet7 {α : Type} [LinearOrder α] (v : Fin 7 → α) : Fin 7 → α :=
  v |> cas 0 5 |> cas 0 3 |> cas 1 6 |> cas 2 4 |> cas 0 1 |> cas 3 5
    |> cas 2 6 |> cas 2 3 |> cas 3 6 |> cas 4 5 |> cas 1 4 |> cas 1 3
    |> cas 3 4

/-- Embedding of quickMedianFilter7: run the network and return p[3]. -/
def quickMedianFilter7 (v : Fin 7 → ℤ) : ℤ := quickMedianNet7 v 3

/-- Comparator sequence of quickMedianFilter9 (maths.c lines 257-280),
including the two reversed-index comparators cas 4 2 and cas 6 4. -/
def quickMedianNet9 {α : Type} [LinearOrder α] (v : Fin 9 → α) : Fin 9 → α :=
  v |> cas 1 2 |> cas 4 5 |> cas 7 8 |> cas 0 1 |> cas 3 4 |> cas 6 7
    |> cas 1 2 |> cas 4 5 |> cas 7 8 |> cas 0 3 |> cas 5 8 |> cas 4 7
    |> cas 3 6 |> cas 1 4 |> cas 2 5 |> cas 4 7 |> cas 4 2 |> cas 6 4
    |> cas 4 2

/-- Embedding of quickMedianFilter9: run the network and return p[4]. -/
def quickMedianFilter9 (v : Fin 9 → ℤ) : ℤ := quickMedianNet9 v 4

/-- True statistical median of a list of odd length: the middle element of
the sorted arrangement. The default d is only consulted for index
overflow, which cannot happen on nonempty lists. -/
def medianOfList {α : Type} [LinearOrder α] (l : List α) (d : α) : α :=
  (l.insertionSort (fun a b => a ≤ b)).getD (l.length / 2) d

/-- Comparator steps commute with monotone maps, the heart of the zero-one
principle: min and max are preserved, the untouched slots are mapped
pointwise. -/
lemma cas_comp {α β : Type} [LinearOrder α] [LinearOrder β] {f : α → β} (hf : Monotone f)
    {n : ℕ} (i j : Fin n) (v : Fin n → α) : cas i j (f ∘ v) = f ∘ cas i j v := by
  funext k
  simp only [cas, Function.comp]
  split_ifs <;> simp [hf.map_min, hf.map_max]

/-- Network of size 3 commutes with monotone maps. -/
lemma quickMedianNet3_comp {α β : Type} [LinearOrder α] [LinearOrder β] {f : α → β}
    (hf : Monotone f) (v : Fin 3 → α) : quickMedianNet3 (f ∘ v) = f ∘ quickMedianNet3 v := by
  simp only [quickMedianNet3, cas_comp hf]

/-- Network of size 5 commutes with monotone maps. -/
lemma quickMedianNet5_comp {α β : Type} [LinearOrder α] [LinearOrder β] {f : α → β}
    (hf : Monotone f) (v : Fin 5 → α) : quickMedianNet5 (f ∘ v) = f ∘ quickMedianNet5 v := by
  simp only [quickMedianNet5, cas_comp hf]

/-- Network of size 7 commutes with monotone maps. -/
lemma quickMedianNet7_comp {α β : Type} [LinearOrder α] [LinearOrder β] {f : α → β}
    (hf : Monotone f) (v : Fin 7 → α) : quickMedianNet7 (f ∘ v) = f ∘ quickMedianNet7 v := by
  simp only [quickMedianNet7, cas_comp hf]

/-- Network of size 9 commutes with monotone maps. -/
lemma quickMedianNet9_comp {α β : Type} [LinearOrder α] [LinearOrder β] {f : α → β}
    (hf : Monotone f) (v : Fin 9 → α) : quickMedianNet9 (f ∘ v) = f ∘ quickMedianNet9 v := by
  simp only [quickMedianNet9, cas_comp hf]

/-- Insertion sort commutes with monotone maps: both sides are sorted
rearrangements of the same mapped list. -/
lemma insertionSort_map {α β : Type} [LinearOrder α] [LinearOrder β] {f : α → β}
    (hf : Monotone f) (l : List α) :
    (l.map f).insertionSort (fun a b => a ≤ b) =
      (l.insertionSort (fun a b => a ≤ b)).map f := by
  apply List.eq_of_perm_of_sorted (r := fun a b : β => a ≤ b)
  · exact (List.perm_insertionSort _ (l.map f)).trans
      ((List.perm_insertionSort _ l).map f).symm
  · exact List.sorted_insertionSort _ (l.map f)
  · exact List.Pairwise.map f (fun a b hab => hf hab) (List.sorted_insertionSort _ l)

/-- Median commutes with monotone maps on nonempty lists, whatever the
defaults. -/
lemma medianOfList_map {α β : Type} [LinearOrder α] [LinearOrder β] {f : α → β}
    (hf : Monotone f) (l : List α) (d : α) (e : β) (hl : 0 < l.length) :
    medianOfList (l.map f) e = f (medianOfList l d) := by
  have hidx : l.length / 2 < l.length := Nat.div_lt_self hl (by omega)
  have h1 : l.length / 2 < ((l.map f).insertionSort (fun a b => a ≤ b)).length := by
    simpa [List.length_insertionSort, List.length_map] using hidx
  have h2 : l.length / 2 < (l.insertionSort (fun a b => a ≤ b)).length := by
    simpa [List.length_insertionSort] using hidx
  have hlen : (l.map f).length = l.length := List.length_map l f
  unfold medianOfList
  rw [hlen, insertionSort_map hf,
    List.getD_eq_getElem _ _ (by simpa [List.length_map] using h2),
    List.getD_eq_getElem _ _ h2]
  simp [List.getElem_map]

/-- Threshold indicator used in the zero-one argument: true exactly on the
values at least t. -/
def thresh (t : ℤ) : ℤ → Bool := fun a => t ≤ a

/-- Threshold indicators are monotone into the Boolean order. -/
lemma thresh_monotone (t : ℤ) : Monotone (thresh t) := by
  intro a b hab
  simp only [thresh]
  by_cases h : t ≤ a
  · simp [h, le_trans h hab]
  · simp [h]

/-- Zero-one principle specialised to median selection: if a network slot
agrees with the median on every Boolean input and the network commutes
with threshold maps, the slot is the median on every integer input. -/
lemma median_from_bool {n : ℕ}
    (net : (Fin n → ℤ) → Fin n → ℤ) (netB : (Fin n → Bool) → Fin n → Bool)
    (mid : Fin n)
    (hcomm : ∀ (t : ℤ) (v : Fin n → ℤ), netB (thresh t ∘ v) = thresh t ∘ net v)
    (hbool : ∀ v : Fin n → Bool, netB v mid = medianOfList (List.ofFn v) false)
    (hn : 0 < n)
    (v : Fin n → ℤ) : net v mid = medianOfList (List.ofFn v) 0 := by
  have hlv : 0 < (List.ofFn v).length := by simpa [List.length_ofFn] using hn
  have key : ∀ t : ℤ, thresh t (net v mid) = thresh t (medianOfList (List.ofFn v) 0) := by
    intro t
    have h1 : netB (thresh t ∘ v) mid = thresh t (net v mid) := by
      rw [hcomm]
      rfl
    have h2 : medianOfList (List.ofFn (thresh t ∘ v)) false =
        thresh t (medianOfList (List.ofFn v) 0) := by
      rw [show List.ofFn (thresh t ∘ v) = (List.ofFn v).map (thresh t) from
        (List.map_ofFn v (thresh t)).symm]
      exact medianOfList_map (thresh_monotone t) (List.ofFn v) 0 false hlv
    rw [← h1, hbool, h2]
  have ha : net v mid ≤ medianOfList (List.ofFn v) 0 := by
    have h3 : thresh (net v mid) (medianOfList (List.ofFn v) 0) = true := by
      rw [← key]
      simp [thresh]
    simpa [thresh] using h3
  have hb : medianOfList (List.ofFn v) 0 ≤ net v mid := by
    have h3 : thresh (medianOfList (List.ofFn v) 0) (net v mid) = true := by
      rw [key]
      simp [thresh]
    simpa [thresh] using h3
  exact le_antisymm ha hb

/-- Exhaustive Boolean check of the size 3 network against the median. -/
lemma quickMedianNet3_bool :
    ∀ v : Fin 3 → Bool, quickMedianNet3 v 1 = medianOfList (List.ofFn v) false := by
  decide

/-- Exhaustive Boolean check of the size 5 network against the median. -/
lemma quickMedianNet5_bool :
    ∀ v : Fin 5 → Bool, quickMedianNet5 v 2 = medianOfList (List.ofFn v) false := by
  decide

set_option maxRecDepth 8000 in
set_option maxHeartbeats 2000000 in
/-- Exhaustive Boolean check of the size 7 network against the median. -/
lemma quickMedianNet7_bool :
    ∀ v : Fin 7 → Bool, quickMedianNet7 v 3 = medianOfList (List.ofFn v) false := by
  decide

set_option maxRecDepth 16000 in
set_option maxHeartbeats 4000000 in
/-- Exhaustive Boolean check of the size 9 network against the median. -/
lemma quickMedianNet9_bool :
    ∀ v : Fin 9 → Bool, quickMedianNet9 v 4 = medianOfList (List.ofFn v) false := by
  decide

/-- Claim C1: for every N in 3, 5, 7, 9 and every integer input vector of
length N, duplicates included, quickMedianFilterN returns the true
statistical median, the middle element of the sorted arrangement; in
particular quickMedianFilter5 on the input 5, 3, 1, 4, 2 returns 3. -/
theorem quickMedianFilter_returns_median :
    (∀ v : Fin 3 → ℤ, quickMedianFilter3 v = medianOfList (List.ofFn v) 0) ∧
    (∀ v : Fin 5 → ℤ, quickMedianFilter5 v = medianOfList (List.ofFn v) 0) ∧
    (∀ v : Fin 7 → ℤ, quickMedianFilter7 v = medianOfList (List.ofFn v) 0) ∧
    (∀ v : Fin 9 → ℤ, quickMedianFilter9 v = medianOfList (List.ofFn v) 0) ∧
    quickMedianFilter5 ![5, 3, 1, 4, 2] = 3 := by
  refine ⟨?_, ?_, ?_, ?_, by decide⟩
  · exact fun v => median_from_bool quickMedianNet3 quickMedianNet3 1
      (fun t w => quickMedianNet3_comp (thresh_monotone t) w)
      quickMedianNet3_bool (by omega) v
  · exact fun v => median_from_bool quickMedianNet5 quickMedianNet5 2
      (fun t w => quickMedianNet5_comp (thresh_monotone t) w)
      quickMedianNet5_bool (by omega) v
  · exact fun v => median_from_bool quickMedianNet7 quickMedianNet7 3
      (fun t w => quickMedianNet7_comp (thresh_monotone t) w)
      quickMedianNet7_bool (by omega) v
  · exact fun v => median_from_bool quickMedianNet9 quickMedianNet9 4
      (fun t w => quickMedianNet9_comp (thresh_monotone t) w)
      quickMedianNet9_bool (by omega) v

/-- Claim C2 counterexample: atan2_approx at the input pair (0, 0) does
not return 0; the polynomial step leaves the constant coefficient. -/
theorem atan2_approx_zero_zero_nonzero : atan2_approx 0 0 ≠ 0 := by
  norm_num [atan2_approx, atanPolyCoef1, atanPolyCoef2, atanPolyCoef3, atanPolyCoef4,
    atanPolyCoef5, atanPolyCoef6, atanPolyCoef7, M_PIf]

/-- Claim C2 amended: atan2_approx(0, 0) returns atanPolyCoef1, about
3.1455e-7, and no division by zero occurs on that input: the ratio
division is skipped because max of the magnitudes is 0, and the remaining
division has denominator exactly 1. -/
theorem atan2_approx_zero_zero :
    atan2_approx 0 0 = atanPolyCoef1 ∧
    max |(0 : ℚ)| |(0 : ℚ)| = 0 ∧
    (atanPolyCoef7 * 0 + atanPolyCoef6) * 0 + 1 ≠ 0 := by
  refine ⟨?_, by norm_num, ?_⟩
  · norm_num [atan2_approx, atanPolyCoef1, atanPolyCoef2, atanPolyCoef3, atanPolyCoef4,
      atanPolyCoef5, atanPolyCoef6, atanPolyCoef7, M_PIf]
  · norm_num [atanPolyCoef6, atanPolyCoef7]

/-- Claim C3: both frame transforms force the vector argument to a pure
vector quaternion, w equal to 0, and store the sandwich product with the
same association as the code: qReference times vector times conjugate for
body to earth, conjugate times vector times qReference for earth to body,
where the product is the Hamilton product of quaternionMultiply. -/
theorem quaternionTransformVector_spec :
    ∀ qVector qReference : quaternion ℚ,
      quaternionTransformVectorBodyToEarth qVector qReference =
        quaternionMultiply
          (quaternionMultiply qReference
            { w := 0, x := qVector.x, y := qVector.y, z := qVector.z })
          (quaternionConjugate qReference) ∧
      quaternionTransformVectorEarthToBody qVector qReference =
        quaternionMultiply
          (quaternionMultiply (quaternionConjugate qReference)
            { w := 0, x := qVector.x, y := qVector.y, z := qVector.z })
          qReference :=
  fun _ _ => ⟨rfl, rfl⟩

/-- Claim C10: the quaternion written by quaternionInitQuaternion is a
two-sided identity for the Hamilton product of quaternionMultiply. -/
theorem quaternionInitQuaternion_mul_identity :
    ∀ q : quaternion ℚ,
      quaternionMultiply quaternionInitQuaternion q = q ∧
      quaternionMultiply q quaternionInitQuaternion = q := by
  intro q
  constructor <;> (ext <;> simp [quaternionMultiply, quaternionInitQuaternion])

/-- Modelled ABS macro agrees with the absolute value on ℤ. -/
lemma ABS_eq_abs (x : ℤ) : ABS x = |x| := by
  rw [ABS]
  split_ifs with h
  · exact (abs_of_pos h).symm
  · exact (abs_of_nonpos (by omega)).symm

/-- Claim C7: for nonnegative deadbands, values strictly inside the band
give 0, values at or beyond the band are shifted toward zero by the band
width, in both the integer and the float variant; the three concrete
integer examples hold. -/
theorem applyDeadband_spec :
    (∀ value deadband : ℤ, 0 ≤ deadband →
      (|value| < deadband → applyDeadband value deadband = 0) ∧
      (0 ≤ value → deadband ≤ |value| → applyDeadband value deadband = value - deadband) ∧
      (value < 0 → deadband ≤ |value| → applyDeadband value deadband = value + deadband)) ∧
    applyDeadband 15 10 = 5 ∧
    applyDeadband 5 10 = 0 ∧
    applyDeadband (-15) 10 = -5 ∧
    (∀ value deadband : ℚ, 0 ≤ deadband →
      (|value| < deadband → fapplyDeadband value deadband = 0) ∧
      (0 ≤ value → deadband ≤ |value| → fapplyDeadband value deadband = value - deadband) ∧
      (value < 0 → deadband ≤ |value| → fapplyDeadband value deadband = value + deadband)) := by
  refine ⟨?_, by decide, by decide, by decide, ?_⟩
  · intro value deadband _
    refine ⟨?_, ?_, ?_⟩
    · intro h
      simp [applyDeadband, ABS_eq_abs, h]
    · intro hv h
      simp [applyDeadband, ABS_eq_abs, not_lt.mpr h, hv]
    · intro hv h
      simp [applyDeadband, ABS_eq_abs, not_lt.mpr h, not_le.mpr hv]
  · intro value deadband _
    refine ⟨?_, ?_, ?_⟩
    · intro h
      simp [fapplyDeadband, h]
    · intro hv h
      simp [fapplyDeadband, not_lt.mpr h, hv]
    · intro hv h
      simp [fapplyDeadband, not_lt.mpr h, not_le.mpr hv]

/-- Witness for claim C7 at concrete inputs of both variants. -/
theorem applyDeadband_spec_witness :
    applyDeadband 15 10 = 15 - 10 ∧
    applyDeadband 5 10 = 0 ∧
    applyDeadband (-15) 10 = -15 + 10 ∧
    fapplyDeadband 2.5 1 = 2.5 - 1 :=
  ⟨(applyDeadband_spec.1 15 10 (by decide)).2.1 (by decide) (by decide),
   (applyDeadband_spec.1 5 10 (by decide)).1 (by decide),
   (applyDeadband_spec.1 (-15) 10 (by decide)).2.2 (by decide) (by decide),
   (applyDeadband_spec.2.2.2.2 2.5 1 (by norm_num)).2.1 (by norm_num)
     (by rw [abs_of_nonneg (by norm_num : (0 : ℚ) ≤ 2.5)]; norm_num)⟩

/-- Claim C6: with a nonempty source interval, scaleRange is the affine
remap computed as product first, then division truncating toward zero,
then the destination offset; Int.tdiv is that truncating division, as the
accompanying sign and magnitude identities record; the concrete example
gives 500. The wider-than-int intermediate of the C code is modelled by
the unbounded integers a and b in the definition. -/
theorem scaleRange_spec :
    (∀ x srcFrom srcTo destFrom destTo : ℤ, srcFrom ≠ srcTo →
      scaleRange x srcFrom srcTo destFrom destTo =
        Int.tdiv ((destTo - destFrom) * (x - srcFrom)) (srcTo - srcFrom) + destFrom) ∧
    (∀ p q : ℕ, Int.tdiv (p : ℤ) (q : ℤ) = ((p / q : ℕ) : ℤ)) ∧
    (∀ p q : ℤ, Int.tdiv (-p) q = -(Int.tdiv p q)) ∧
    (∀ p q : ℤ, Int.tdiv p (-q) = -(Int.tdiv p q)) ∧
    scaleRange 50 0 100 0 1000 = 500 :=
  ⟨fun _ _ _ _ _ _ => rfl, fun _ _ => rfl, Int.neg_tdiv, Int.tdiv_neg, by decide⟩

/-- Witness for claim C6 at the spec example. -/
theorem scaleRange_spec_witness :
    scaleRange 50 0 100 0 1000 = Int.tdiv ((1000 - 0) * (50 - 0)) (100 - 0) + 0 :=
  scaleRange_spec.1 50 0 100 0 1000 (by decide)

/-- Each devPush increments the sample count by one, in both branches. -/
lemma devPush_m_n (dev : stdev_t) (x : ℚ) : (devPush dev x).m_n = dev.m_n + 1 := by
  rw [devPush]
  split_ifs <;> rfl

/-- Folding devPush adds the list length to the sample count. -/
lemma devPushList_m_n (xs : List ℚ) :
    ∀ dev : stdev_t, (devPushList dev xs).m_n = dev.m_n + xs.length := by
  induction xs with
  | nil => intro dev; rfl
  | cons x xs ih =>
    intro dev
    have h1 : devPushList dev (x :: xs) = devPushList (devPush dev x) xs := rfl
    rw [h1, ih, devPush_m_n]
    simp [List.length_cons]
    omega

/-- Claim C4: after devClear, the sample count is the number of pushes;
devVariance is 0 for counts 0 and 1 and otherwise the sum of squared
deviations accumulator divided by count minus 1; pushing the samples
2, 4, 4, 4, 5, 5, 7, 9 yields variance exactly 32/7, within 0.001 of
4.571, and standard deviation within 0.001 of 2.138, whatever garbage the
accumulator held before devClear. -/
theorem devVariance_spec :
    (∀ (dev : stdev_t) (xs : List ℚ), (devPushList (devClear dev) xs).m_n = xs.length) ∧
    (∀ dev : stdev_t, dev.m_n ≤ 1 → devVariance dev = 0) ∧
    (∀ dev : stdev_t, 1 < dev.m_n → devVariance dev = dev.m_newS / ((dev.m_n : ℚ) - 1)) ∧
    (∀ dev : stdev_t, devVariance (devPushList (devClear dev) [2, 4, 4, 4, 5, 5, 7, 9]) = 32 / 7) ∧
    |(32 / 7 : ℚ) - 4.571| < 1 / 1000 ∧
    (∀ dev : stdev_t,
      |devStandardDeviation (devPushList (devClear dev) [2, 4, 4, 4, 5, 5, 7, 9]) - 2.138|
        < 1 / 1000) := by
  have hvar : ∀ dev : stdev_t,
      devVariance (devPushList (devClear dev) [2, 4, 4, 4, 5, 5, 7, 9]) = 32 / 7 := by
    intro dev
    norm_num [devPushList, devPush, devClear, devVariance]
  refine ⟨?_, ?_, ?_, hvar, ?_, ?_⟩
  · intro dev xs
    rw [devPushList_m_n]
    simp [devClear]
  · intro dev h
    rw [devVariance, if_neg (by omega)]
  · intro dev h
    rw [devVariance, if_pos h]
  · rw [abs_sub_lt_iff]
    norm_num
  · intro dev
    rw [devStandardDeviation, hvar dev]
    have hcast : (((32 / 7 : ℚ) : ℝ)) = 32 / 7 := by norm_num
    rw [hcast, abs_sub_lt_iff]
    have h1 : Real.sqrt (32 / 7) < 2.139 := by
      rw [Real.sqrt_lt' (by norm_num)]
      norm_num
    have h2 : (2.137 : ℝ) < Real.sqrt (32 / 7) := by
      rw [show (2.137 : ℝ) < Real.sqrt (32 / 7) ↔ (2.137 : ℝ) ^ 2 < 32 / 7 from
        Real.lt_sqrt (by norm_num)]
      norm_num
    constructor <;> [linarith; linarith]

/-- Witness for claim C4 at concrete accumulator states. -/
theorem devVariance_spec_witness :
    devVariance { m_n := 1, m_oldM := 5, m_newM := 5, m_oldS := 0, m_newS := 99 } = 0 ∧
    devVariance { m_n := 3, m_oldM := 0, m_newM := 0, m_oldS := 8, m_newS := 8 } =
      8 / (((3 : ℕ) : ℚ) - 1) ∧
    devVariance (devPushList (devClear ⟨7, 1, 2, 3, 4⟩) [2, 4, 4, 4, 5, 5, 7, 9]) = 32 / 7 ∧
    |devStandardDeviation (devPushList (devClear ⟨7, 1, 2, 3, 4⟩) [2, 4, 4, 4, 5, 5, 7, 9])
      - 2.138| < 1 / 1000 :=
  ⟨devVariance_spec.2.1 _ (by decide),
   devVariance_spec.2.2.1 _ (by decide),
   devVariance_spec.2.2.2.1 _,
   devVariance_spec.2.2.2.2.2 _⟩

/-- Claim C9: with a zero Euclidean norm, normalizeV leaves the
destination untouched and quaternionNormalize leaves the quaternion
untouched; with a nonzero norm each output component is the matching
input component divided by the norm. -/
theorem normalize_zero_norm_spec :
    (∀ src dest : fp_vector,
      (Real.sqrt (src.X * src.X + src.Y * src.Y + src.Z * src.Z) = 0 →
        normalizeV src dest = dest) ∧
      (Real.sqrt (src.X * src.X + src.Y * src.Y + src.Z * src.Z) ≠ 0 →
        normalizeV src dest =
          { X := src.X / Real.sqrt (src.X * src.X + src.Y * src.Y + src.Z * src.Z),
            Y := src.Y / Real.sqrt (src.X * src.X + src.Y * src.Y + src.Z * src.Z),
            Z := src.Z / Real.sqrt (src.X * src.X + src.Y * src.Y + src.Z * src.Z) })) ∧
    (∀ q : quaternion ℝ,
      (quaternionModulus q = 0 → quaternionNormalize q = q) ∧
      (quaternionModulus q ≠ 0 → quaternionNormalize q =
        { w := q.w / quaternionModulus q, x := q.x / quaternionModulus q,
          y := q.y / quaternionModulus q, z := q.z / quaternionModulus q })) := by
  constructor
  · intro src dest
    constructor
    · intro h
      simp [normalizeV, h]
    · intro h
      simp [normalizeV, h]
  · intro q
    constructor
    · intro h
      simp [quaternionNormalize, h]
    · intro h
      simp [quaternionNormalize, h]

/-- Witness for claim C9: the all-zero vector and quaternion hit the
no-op branch, a 3-4-0 vector hits the division branch. -/
theorem normalize_zero_norm_spec_witness :
    normalizeV { X := 0, Y := 0, Z := 0 } { X := 1, Y := 2, Z := 3 } =
      { X := 1, Y := 2, Z := 3 } ∧
    quaternionNormalize { w := 0, x := 0, y := 0, z := 0 } =
      { w := 0, x := 0, y := 0, z := 0 } ∧
    normalizeV { X := 3, Y := 4, Z := 0 } { X := 1, Y := 2, Z := 3 } =
      { X := 3 / Real.sqrt ((3 : ℝ) * 3 + 4 * 4 + 0 * 0),
        Y := 4 / Real.sqrt ((3 : ℝ) * 3 + 4 * 4 + 0 * 0),
        Z := 0 / Real.sqrt ((3 : ℝ) * 3 + 4 * 4 + 0 * 0) } :=
  ⟨(normalize_zero_norm_spec.1 _ _).1 (by simp),
   (normalize_zero_norm_spec.2 _).1 (by simp [quaternionModulus, quaternionNorm]),
   (normalize_zero_norm_spec.1 _ _).2 (by
      rw [Real.sqrt_ne_zero <| by norm_num]
      norm_num)⟩

/-- Claim C5: whenever the truncation toward zero of the input exceeds 32
in magnitude, sin_approx returns 0 from the guard, before the wrapping
loops and the polynomial. -/
theorem sin_approx_out_of_range :
    ∀ x : ℚ, 32 < |truncQ x| → sin_approx x = 0 := by
  intro x h
  have h2 : truncQ x < -32 ∨ 32 < truncQ x := by
    rcases abs_cases (truncQ x) with ⟨he, hs⟩ | ⟨he, hs⟩ <;> rw [he] at h <;> omega
  simp [sin_approx, h2]

/-- Witness for claim C5 at the concrete out-of-range input 100. -/
theorem sin_approx_out_of_range_witness : sin_approx 100 = 0 :=
  sin_approx_out_of_range 100 (by norm_num [truncQ])

/-- Fuel at least the ceiling measure completes the downward wrap loop
and agrees with the total model of the loop. -/
lemma wrapDownFuel_complete :
    ∀ (n : ℕ) (x : ℚ), (⌈(x - M_PIf) / (2 * M_PIf)⌉).toNat ≤ n →
      wrapDownFuel n x = some (wrapDown x) := by
  intro n
  induction n with
  | zero =>
    intro x hx
    have hle : ⌈(x - M_PIf) / (2 * M_PIf)⌉ ≤ 0 := by omega
    have hq : (x - M_PIf) / (2 * M_PIf) ≤ 0 := by
      have h0 := Int.ceil_le.mp hle
      simpa using h0
    have hxle : ¬ M_PIf < x := by
      intro hlt
      have hpos : 0 < (x - M_PIf) / (2 * M_PIf) :=
        div_pos (by linarith) (by linarith [M_PIf_pos])
      linarith
    rw [wrapDownFuel, wrapDown, if_neg hxle, dif_neg hxle]
  | succ n ih =>
    intro x hx
    by_cases h : M_PIf < x
    · rw [wrapDownFuel, wrapDown, if_pos h, dif_pos h]
      apply ih
      have hmeas := ceil_measure_down x
      have h1 : 0 < ⌈(x - M_PIf) / (2 * M_PIf)⌉ :=
        Int.ceil_pos.mpr (div_pos (by linarith) (by linarith [M_PIf_pos]))
      omega
    · rw [wrapDownFuel, wrapDown, if_neg h, dif_neg h]

/-- Fuel at least the ceiling measure completes the upward wrap loop and
agrees with the total model of the loop. -/
lemma wrapUpFuel_complete :
    ∀ (n : ℕ) (x : ℚ), (⌈(-M_PIf - x) / (2 * M_PIf)⌉).toNat ≤ n →
      wrapUpFuel n x = some (wrapUp x) := by
  intro n
  induction n with
  | zero =>
    intro x hx
    have hle : ⌈(-M_PIf - x) / (2 * M_PIf)⌉ ≤ 0 := by omega
    have hq : (-M_PIf - x) / (2 * M_PIf) ≤ 0 := by
      have h0 := Int.ceil_le.mp hle
      simpa using h0
    have hxle : ¬ x < -M_PIf := by
      intro hlt
      have hpos : 0 < (-M_PIf - x) / (2 * M_PIf) :=
        div_pos (by linarith) (by linarith [M_PIf_pos])
      linarith
    rw [wrapUpFuel, wrapUp, if_neg hxle, dif_neg hxle]
  | succ n ih =>
    intro x hx
    by_cases h : x < -M_PIf
    · rw [wrapUpFuel, wrapUp, if_pos h, dif_pos h]
      apply ih
      have hmeas := ceil_measure_up x
      have h1 : 0 < ⌈(-M_PIf - x) / (2 * M_PIf)⌉ :=
        Int.ceil_pos.mpr (div_pos (by linarith) (by linarith [M_PIf_pos]))
      omega
    · rw [wrapUpFuel, wrapUp, if_neg h, dif_neg h]

/-- Claim C8: each iteration of the two wrap loops of sin_approx strictly
reduces the magnitude of the angle, and each loop finishes within a finite
iteration count whose fuelled run agrees with the total loop model; so the
function terminates on every input. -/
theorem sin_approx_wrap_terminates :
    (∀ x : ℚ, M_PIf < x → |x - 2 * M_PIf| < |x|) ∧
    (∀ x : ℚ, x < -M_PIf → |x + 2 * M_PIf| < |x|) ∧
    (∀ x : ℚ, ∃ n : ℕ, wrapDownFuel n x = some (wrapDown x)) ∧
    (∀ x : ℚ, ∃ n : ℕ, wrapUpFuel n x = some (wrapUp x)) := by
  refine ⟨?_, ?_, ?_, ?_⟩
  · intro x h
    have hp := M_PIf_pos
    have hx : |x| = x := abs_of_pos (by linarith)
    rw [hx, abs_lt]
    constructor <;> linarith
  · intro x h
    have hp := M_PIf_pos
    have hx : |x| = -x := abs_of_neg (by linarith)
    rw [hx, abs_lt]
    constructor <;> linarith
  · exact fun x => ⟨_, wrapDownFuel_complete _ x le_rfl⟩
  · exact fun x => ⟨_, wrapUpFuel_complete _ x le_rfl⟩

/-- Witness for claim C8 at the concrete angles 4 and minus 4. -/
theorem sin_approx_wrap_terminates_witness :
    |(4 : ℚ) - 2 * M_PIf| < |(4 : ℚ)| ∧
    |(-4 : ℚ) + 2 * M_PIf| < |(-4 : ℚ)| ∧
    (∃ n : ℕ, wrapDownFuel n 4 = some (wrapDown 4)) ∧
    (∃ n : ℕ, wrapUpFuel n (-4) = some (wrapUp (-4))) :=
  ⟨sin_approx_wrap_terminates.1 4 (by norm_num [M_PIf]),
   sin_approx_wrap_terminates.2.1 (-4) (by norm_num [M_PIf]),
   sin_approx_wrap_terminates.2.2.1 4,
   sin_approx_wrap_terminates.2.2.2 (-4)⟩
